import Mathlib

/-!
Verification of the Applytics event-to-stat rollup engine.

This file embeds the core of the Applytics Cloudflare Worker
(`src/utils.js`, `src/api/events.js`, `src/api/timeseries.js`,
`src/database.js`, `schema.sql`) as executable Lean definitions and proves
the specified properties about them.

Modelling conventions:
* JavaScript strings are Lean `String`s; the JS methods `includes`,
  `startsWith` and `split` are re-implemented structurally on character
  lists so that all definitions compute by kernel reduction.
* SQLite rows are Lean structures; the two tables (`events`, `stats`) are
  lists of rows inside a `Store`.  The `UNIQUE(app_id, metric)` upsert
  `INSERT ... ON CONFLICT (app_id, metric) DO UPDATE SET value = value + ?,
  last_updated = ?` is modelled by `upsertStat`, which updates the first
  (and, starting from an empty store, only) row with the conflicting key.
  Note that the conflict clause of the source updates only `value` and
  `last_updated`; it does not touch `category`.
* JS truthiness tests on strings (`qualifier ? ... : ...`,
  `category || ...`, `!event_type`, `result?.value || value`) are modelled
  explicitly: a string is falsy exactly when it is empty, a number is falsy
  exactly when it is 0, `null`/absent is `Option.none`.
* `db.batch` is atomic: a handler that returns an error before calling
  `db.batch` leaves the store unchanged, which `stepOp` makes explicit.
-/

namespace Applytics

/-! ### JS string primitives -/

/-- JS `haystack.includes(needle)`: substring test on character lists. -/
def charsInclude (needle : List Char) : List Char → Bool
  | [] => needle.isEmpty
  | c :: rest => needle.isPrefixOf (c :: rest) || charsInclude needle rest

/-- JS `s.includes(sub)`. -/
def jsIncludes (s sub : String) : Bool :=
  charsInclude sub.data s.data

/-- JS `s.startsWith(p)`. -/
def jsStartsWith (s p : String) : Bool :=
  p.data.isPrefixOf s.data

/-- JS `s.split('.')` (no limit): split a character list at every dot.
The result is always nonempty. -/
def splitDot : List Char → List (List Char)
  | [] => [[]]
  | c :: rest =>
    if c = '.' then [] :: splitDot rest
    else
      match splitDot rest with
      | [] => [[c]]
      | h :: t => (c :: h) :: t

/-! ### Data model (schema.sql) -/

/-- One row of the `events` table. -/
structure EventRow where
  app_id : String
  event_type : String
  event_category : String
  qualifier : Option String
  value : Int
  timestamp : Int
  country : Option String
deriving Repr, DecidableEq

/-- One row of the `stats` table (`UNIQUE(app_id, metric)`). -/
structure StatRow where
  app_id : String
  metric : String
  category : String
  value : Int
  last_updated : Int
deriving Repr, DecidableEq

/-- The persistent state: the two tables. -/
structure Store where
  events : List EventRow
  stats : List StatRow
deriving Repr, DecidableEq

def Store.empty : Store := ⟨[], []⟩

/-! ### Categorizer (`determineCategory`, src/utils.js) -/

/-- `determineCategory` from src/utils.js: ordered case-sensitive
substring/prefix rules, first match wins, default `"general"`. -/
def determineCategory (eventType : String) : String :=
  if jsStartsWith eventType "purchase" || jsIncludes eventType "payment" ||
     jsIncludes eventType "subscription" then "revenue"
  else if eventType = "install" || eventType = "uninstall" ||
     jsIncludes eventType "update" then "lifecycle"
  else if jsIncludes eventType "view" || jsIncludes eventType "screen" ||
     jsIncludes eventType "page" then "engagement"
  else if jsIncludes eventType "click" || jsIncludes eventType "tap" ||
     jsIncludes eventType "swipe" then "interaction"
  else if jsIncludes eventType "error" || jsIncludes eventType "crash" ||
     jsIncludes eventType "exception" then "error"
  else if jsIncludes eventType "user" || jsIncludes eventType "account" ||
     jsIncludes eventType "login" then "user"
  else "general"

/-! ### Metric Key Builder -/

/-- The metric key derivation used by every writer:
JS ``qualifier ? `${event_type}.${qualifier}` : event_type`` from
src/api/events.js and `createEventStatements` in src/database.js.
The JS conditional tests *truthiness*: `null` and the empty string are
both falsy. -/
def buildMetricKey (event_type : String) (qualifier : Option String) : String :=
  match qualifier with
  | some q => if q = "" then event_type else event_type ++ "." ++ q
  | none => event_type

/-- JS `category || determineCategory(event_type)` from the track handlers:
a client category that is absent (`null`) or empty (falsy) is replaced by
the derived one. -/
def resolveCategory (category : Option String) (event_type : String) : String :=
  match category with
  | some c => if c = "" then determineCategory event_type else c
  | none => determineCategory event_type

/-! ### Event Recorder (src/api/events.js) -/

/-- A parsed `/track` request body after JS destructuring defaults
(`qualifier = null`, `value = 1`, `category = null`); a missing or empty
`event_type` is modelled as `""` (both are falsy for `!event_type`). -/
structure TrackRequest where
  event_type : String
  qualifier : Option String := none
  value : Int := 1
  category : Option String := none
  timestamp : Int
  country : Option String := none
deriving Repr, DecidableEq

/-- The payload of a successful `/track` response. -/
structure TrackResult where
  metric : String
  category : String
  value : Int
  timestamp : Int
deriving Repr, DecidableEq

/-- The stats upsert of `createEventStatements` / `handleTrackEvent`:
`INSERT INTO stats (app_id, metric, category, value, last_updated)
VALUES (?, ?, ?, ?, ?) ON CONFLICT (app_id, metric) DO UPDATE
SET value = value + ?, last_updated = ?`.
On conflict SQLite keeps the existing row's `category`. -/
def upsertStat (l : List StatRow) (a m cat : String) (v ts : Int) : List StatRow :=
  match l with
  | [] => [⟨a, m, cat, v, ts⟩]
  | r :: rest =>
    if r.app_id = a ∧ r.metric = m then
      ⟨r.app_id, r.metric, r.category, r.value + v, ts⟩ :: rest
    else
      r :: upsertStat rest a m cat v ts

/-- The paired write operations of one recorded event: append the event
row, upsert-increment its counter (both submitted in one `db.batch`). -/
def applyEvent (s : Store) (a et cat : String) (q : Option String)
    (v ts : Int) (co : Option String) : Store :=
  ⟨s.events ++ [⟨a, et, cat, q, v, ts, co⟩],
   upsertStat s.stats a (buildMetricKey et q) cat v ts⟩

/-- SQL `SELECT ... FROM stats WHERE app_id = ? AND metric = ?`. -/
def findStat (l : List StatRow) (a m : String) : Option StatRow :=
  l.find? fun r => r.app_id == a && r.metric == m

/-- The counter value for `(app_id, metric)`; 0 when the row is absent. -/
def statValue (s : Store) (a m : String) : Int :=
  match findStat s.stats a m with
  | some r => r.value
  | none => 0

/-- The stored category of the stat row for `(app_id, metric)`. -/
def statCategory (s : Store) (a m : String) : Option String :=
  (findStat s.stats a m).map (·.category)

/-- The `last_updated` field of the stat row for `(app_id, metric)`. -/
def statLastUpdated (s : Store) (a m : String) : Option Int :=
  (findStat s.stats a m).map (·.last_updated)

/-- `handleTrackEvent` (src/api/events.js): validate, resolve category and
metric, submit the two writes as one batch, then read the counter back
(`result?.value || value`: a read-back of 0 is falsy and is replaced by the
event's own value). -/
def handleTrackEvent (s : Store) (a : String) (req : TrackRequest) :
    Except String (Store × TrackResult) :=
  if req.event_type = "" then .error "Missing event_type"
  else
    let event_category := resolveCategory req.category req.event_type
    let metric := buildMetricKey req.event_type req.qualifier
    let s' := applyEvent s a req.event_type event_category req.qualifier
      req.value req.timestamp req.country
    let readBack := statValue s' a metric
    let currentValue := if readBack = 0 then req.value else readBack
    .ok (s', ⟨metric, event_category, currentValue, req.timestamp⟩)

/-- `handleBatchTrackEvents` (src/api/events.js): reject an empty list,
more than 100 items, or any item without an `event_type` (the source
returns at the first invalid item, before ever calling `db.batch`, so
nothing is persisted); otherwise apply all `2 * N` writes as one batch. -/
def handleBatchTrackEvents (s : Store) (a : String) (reqs : List TrackRequest) :
    Except String (Store × Nat) :=
  if reqs.isEmpty then .error "Missing or empty events array"
  else if reqs.length > 100 then .error "Batch size exceeds maximum (100)"
  else if reqs.any (fun e => e.event_type == "") then
    .error "Missing event_type in batch item"
  else
    .ok (reqs.foldl (fun st e =>
      applyEvent st a e.event_type (resolveCategory e.category e.event_type)
        e.qualifier e.value e.timestamp e.country) s, reqs.length)

/-- One write-side API call. -/
inductive Op where
  | record (a : String) (req : TrackRequest)
  | recordBatch (a : String) (reqs : List TrackRequest)

/-- Execute one call against the store; a failed call leaves the store
unchanged (its `db.batch` is never reached). -/
def stepOp (s : Store) : Op → Store
  | .record a req =>
    match handleTrackEvent s a req with
    | .ok (s', _) => s'
    | .error _ => s
  | .recordBatch a reqs =>
    match handleBatchTrackEvents s a reqs with
    | .ok (s', _) => s'
    | .error _ => s

/-- Run a sequence of calls from the empty store. -/
def runOps (ops : List Op) : Store :=
  ops.foldl stepOp Store.empty

/-- The sum of `value` over all events of `app_id = a` whose derived
metric key equals `m`. -/
def eventSum (s : Store) (a m : String) : Int :=
  ((s.events.filter fun e =>
    e.app_id == a && buildMetricKey e.event_type e.qualifier == m).map
      (·.value)).sum

/-! ### Timeseries Engine (src/api/timeseries.js) -/

/-- JS `metric.split('.', 2)` destructured into
`[event_type, qualifier]` (src/api/timeseries.js): when the metric
contains a dot, `event_type` is the text before the first dot and
`qualifier` is the *second element of the full split*, i.e. the text
between the first and the second dot — JS `split` with a limit truncates
the parts list, it does not keep the remainder. -/
def splitMetric (m : String) : String × Option String :=
  if m.data.contains '.' then
    let parts := splitDot m.data
    (⟨parts.headD []⟩, (parts.get? 1).map fun l => ⟨l⟩)
  else (m, none)

/-- The SQL row filter of both timeseries queries:
`app_id = ? AND event_type = ? AND timestamp >= ? AND timestamp <= ?`
plus `qualifier = ?` for a present qualifier and `qualifier IS NULL`
for an absent one (an SQL `qualifier = ?` never matches a NULL). -/
def eventMatches (e : EventRow) (a et : String) (q : Option String)
    (fromD toD : Int) : Bool :=
  e.app_id == a && e.event_type == et && decide (fromD ≤ e.timestamp) &&
    decide (e.timestamp ≤ toD) && e.qualifier == q

/-- The events a timeseries query ranges over. -/
def matchingEvents (s : Store) (a et : String) (q : Option String)
    (fromD toD : Int) : List EventRow :=
  s.events.filter fun e => eventMatches e a et q fromD toD

/-- The events matched by a query for metric string `metric` (after the
split into event type and qualifier). -/
def queryEvents (s : Store) (a metric : String) (fromD toD : Int) :
    List EventRow :=
  matchingEvents s a (splitMetric metric).1 (splitMetric metric).2 fromD toD

/-- SQL `SUM(value)` of the events falling in bucket `k`.
`bucketOf` abstracts the four `strftime` bucket-key expressions
(`hour`/`day`/`week`/`month`): each formats a timestamp as a string whose
lexicographic order is the chronological order of the buckets. -/
def bucketSum (evs : List EventRow) (bucketOf : Int → String) (k : String) :
    Int :=
  ((evs.filter fun e => bucketOf e.timestamp == k).map (·.value)).sum

/-- The distinct bucket keys of a set of events (SQL `GROUP BY`). -/
def bucketKeys (evs : List EventRow) (bucketOf : Int → String) :
    List String :=
  (evs.map fun e => bucketOf e.timestamp).dedup

/-- Lexicographic comparison of character lists by code point — the
ordering SQLite's `ORDER BY` and the JS default `sort()` apply to the
ASCII bucket-key strings. -/
def lexLe : List Char → List Char → Bool
  | [], _ => true
  | _ :: _, [] => false
  | a :: as, b :: bs =>
    if a < b then true
    else if b < a then false
    else lexLe as bs

/-- Lexicographic string comparison. -/
def strLe (x y : String) : Bool := lexLe x.data y.data

/-- Insert a string into an ascending list (helper of `sortAsc`). -/
def insortStr (x : String) : List String → List String
  | [] => [x]
  | y :: ys => if strLe x y then x :: y :: ys else y :: insortStr x ys

/-- Chronological (= lexicographic, see `bucketSum`) ascending sort of
bucket keys: SQL `ORDER BY time_period` / JS `Array.prototype.sort()`. -/
def sortAsc : List String → List String
  | [] => []
  | x :: xs => insortStr x (sortAsc xs)

/-- The list is in ascending lexicographic (= chronological) order. -/
def StrSortedLe (l : List String) : Prop :=
  l.Pairwise fun a b => strLe a b = true

/-- `handleTimeseriesQuery` (single metric): SQL
`GROUP BY time_period ORDER BY time_period DESC LIMIT ?` followed by the
JS `results.reverse()` that restores chronological order. -/
def timeseriesQuery (s : Store) (a metric : String) (bucketOf : Int → String)
    (fromD toD : Int) (limit : Nat) : List (String × Int) :=
  let evs := queryEvents s a metric fromD toD
  let descKeys := (sortAsc (bucketKeys evs bucketOf)).reverse
  ((descKeys.take limit).map fun k => (k, bucketSum evs bucketOf k)).reverse

/-- One metric's ascending series inside `handleComparisonQuery`
(`GROUP BY time_period ORDER BY time_period`, no limit). -/
def metricSeries (s : Store) (a m : String) (bucketOf : Int → String)
    (fromD toD : Int) : List (String × Int) :=
  let evs := queryEvents s a m fromD toD
  (sortAsc (bucketKeys evs bucketOf)).map fun k =>
    (k, bucketSum evs bucketOf k)

/-- The union of all time periods across the compared metrics
(the JS `Set` built from every metric's series). -/
def unionBucketKeys (s : Store) (a : String) (metrics : List String)
    (bucketOf : Int → String) (fromD toD : Int) : List String :=
  ((metrics.map fun m =>
    (metricSeries s a m bucketOf fromD toD).map Prod.fst).flatten).dedup

/-- JS `arr.slice(-n)`: the last `n` elements — except that `slice(-0)`
is `slice(0)`, the whole array. -/
def jsSliceNeg (n : Nat) (l : List α) : List α :=
  if n = 0 then l else l.drop (l.length - n)

/-- `handleComparisonQuery`: 1–5 metrics, per-metric ascending series,
sorted union of bucket keys, `slice(-limit)`, and a dense row per kept
bucket with 0 for a metric absent from that bucket.  A row is a JS object
keyed by metric (one key per distinct metric, insertion order); we model
it as an association list over `metrics.dedup`. -/
def comparisonQuery (s : Store) (a : String) (metrics : List String)
    (bucketOf : Int → String) (fromD toD : Int) (limit : Nat) :
    Except String (List (String × List (String × Int))) :=
  if metrics.length < 1 || metrics.length > 5 then
    .error "Please provide between 1 and 5 metrics to compare"
  else
    let sorted := sortAsc (unionBucketKeys s a metrics bucketOf fromD toD)
    let limited := jsSliceNeg limit sorted
    .ok (limited.map fun k =>
      (k, metrics.dedup.map fun m =>
        (m, match (metricSeries s a m bucketOf fromD toD).find?
              (fun p => p.1 == k) with
            | some p => p.2
            | none => 0)))

/-! ### Helper definitions used by the proofs -/

/-- The row the upsert leaves behind for its key: the existing row with
`value` incremented and `last_updated` refreshed (category untouched), or
a fresh row when the key was absent. -/
def bumpStat (found : Option StatRow) (a m cat : String) (v ts : Int) :
    StatRow :=
  match found with
  | some r => ⟨r.app_id, r.metric, r.category, r.value + v, ts⟩
  | none => ⟨a, m, cat, v, ts⟩

/-- The central invariant: every counter equals the sum of its events. -/
def ConsistentStore (s : Store) : Prop :=
  ∀ a m, statValue s a m = eventSum s a m

/-! ### Concrete fixtures for witnesses and counterexamples -/

/-- A 5-item batch whose third item is missing its `event_type`
(the spec's batch-atomicity example). -/
def batchWitnessReqs : List TrackRequest :=
  [⟨"install", none, 1, none, 100, none⟩,
   ⟨"page_view", none, 1, none, 101, none⟩,
   ⟨"", none, 1, none, 102, none⟩,
   ⟨"purchase", some "premium", 999, none, 103, none⟩,
   ⟨"login", none, 1, none, 104, none⟩]

/-- First record call on metric `signup`, asserting category `alpha`. -/
def catReq1 : TrackRequest := ⟨"signup", none, 1, some "alpha", 100, none⟩

/-- Second record call on the same metric, asserting category `beta`. -/
def catReq2 : TrackRequest := ⟨"signup", none, 2, some "beta", 200, none⟩

def catStore1 : Store := stepOp Store.empty (.record "app1" catReq1)

def catStore2 : Store := stepOp catStore1 (.record "app1" catReq2)

/-- The response of the second category call (read back value 1 + 2). -/
def catRes2 : TrackResult := ⟨"signup", "beta", 3, 200⟩

/-- A record call with value 1 followed by one with value -1 drives the
counter back to 0, which is falsy in JS. -/
def plusReq : TrackRequest := ⟨"signup", none, 1, none, 100, none⟩

def minusReq : TrackRequest := ⟨"signup", none, -1, none, 200, none⟩

def plusStore : Store := stepOp Store.empty (.record "app1" plusReq)

/-- The spec's end-to-end scenario request: `purchase` qualified
`premium_upgrade`, value 999, no explicit category. -/
def e2eReq : TrackRequest :=
  ⟨"purchase", some "premium_upgrade", 999, none, 100, none⟩

def e2eStore1 : Store := stepOp Store.empty (.record "app1" e2eReq)

def e2eStore2 : Store := stepOp e2eStore1 (.record "app1" e2eReq)

/-- The response of the second end-to-end call. -/
def e2eRes2 : TrackResult := ⟨"purchase.premium_upgrade", "revenue", 1998, 100⟩

/-- A toy bucketing function standing in for the daily `strftime`
expression: five day-buckets whose names sort chronologically. -/
def demoBucket (ts : Int) : String :=
  if ts < 10 then "d1"
  else if ts < 20 then "d2"
  else if ts < 30 then "d3"
  else if ts < 40 then "d4"
  else "d5"

/-- Five `tick` events in five distinct daily buckets. -/
def tsStore : Store :=
  ⟨[⟨"app1", "tick", "general", none, 1, 5, none⟩,
    ⟨"app1", "tick", "general", none, 2, 15, none⟩,
    ⟨"app1", "tick", "general", none, 3, 25, none⟩,
    ⟨"app1", "tick", "general", none, 4, 35, none⟩,
    ⟨"app1", "tick", "general", none, 5, 45, none⟩], []⟩

/-- A store holding one unqualified and one qualified `tick` event. -/
def qualStore : Store :=
  ⟨[⟨"app1", "tick", "general", none, 1, 5, none⟩,
    ⟨"app1", "tick", "general", some "x", 10, 6, none⟩], []⟩

/-- The spec's density example: metric `alpha` has events in buckets
d1 and d2, metric `beta` only in d2 and d3. -/
def cmpStore : Store :=
  ⟨[⟨"app1", "alpha", "general", none, 1, 5, none⟩,
    ⟨"app1", "alpha", "general", none, 2, 15, none⟩,
    ⟨"app1", "beta", "general", none, 3, 15, none⟩,
    ⟨"app1", "beta", "general", none, 4, 25, none⟩], []⟩

/-- The dense table the comparison query returns on `cmpStore`. -/
def cmpData : List (String × List (String × Int)) :=
  (comparisonQuery cmpStore "app1" ["alpha", "beta"] demoBucket 0 100
    30).toOption.getD []

/-! ### Lemmas about the upsert -/

/-- How `findStat` sees an upsert: the conflicting key gets its `value`
incremented (or a fresh row with the asserted `category`), every other key
is untouched.  On conflict the stored `category` is preserved. -/
lemma findStat_upsertStat (l : List StatRow) (a m cat : String) (v ts : Int)
    (a' m' : String) :
    findStat (upsertStat l a m cat v ts) a' m' =
      if a = a' ∧ m = m' then
        some (bumpStat (findStat l a m) a m cat v ts)
      else findStat l a' m' := by
  induction l with
  | nil =>
    by_cases h : a = a' ∧ m = m'
    · obtain ⟨h1, h2⟩ := h
      subst h1; subst h2
      simp [findStat, upsertStat, List.find?, bumpStat]
    · have hb : ((a == a') && (m == m')) = false := by
        rcases not_and_or.mp h with h1 | h1 <;> simp [h1]
      simp [findStat, upsertStat, List.find?, hb, h]
  | cons r rest ih =>
    by_cases hk : r.app_id = a ∧ r.metric = m
    · obtain ⟨hk1, hk2⟩ := hk
      subst hk1; subst hk2
      by_cases h : r.app_id = a' ∧ r.metric = m'
      · obtain ⟨h1, h2⟩ := h
        subst h1; subst h2
        simp [findStat, upsertStat, List.find?, bumpStat]
      · have hb : ((r.app_id == a') && (r.metric == m')) = false := by
          rcases not_and_or.mp h with h1 | h1 <;> simp [h1]
        simp [findStat, upsertStat, List.find?, hb, h]
    · have hb : ((r.app_id == a) && (r.metric == m)) = false := by
        rcases not_and_or.mp hk with h1 | h1 <;> simp [h1]
      by_cases hcur : ((r.app_id == a') && (r.metric == m')) = true
      · have h : ¬(a = a' ∧ m = m') := by
          rintro ⟨h1, h2⟩
          subst h1; subst h2
          simp only [Bool.and_eq_true, beq_iff_eq] at hcur
          rw [hcur.1, hcur.2] at hb
          simp at hb
        simp [findStat, upsertStat, List.find?, hk, hb, hcur, h]
      · have hcur' : ((r.app_id == a') && (r.metric == m')) = false := by
          simpa using hcur
        have hrw := ih
        simp only [findStat] at hrw
        simp [findStat, upsertStat, List.find?, hk, hb, hcur', hrw]

/-- `statValue` after the two writes of one event: the recorded counter
gains `v`, every other counter is unchanged. -/
lemma statValue_applyEvent (s : Store) (a et cat : String) (q : Option String)
    (v ts : Int) (co : Option String) (a' m' : String) :
    statValue (applyEvent s a et cat q v ts co) a' m' =
      statValue s a' m' +
        (if a = a' ∧ buildMetricKey et q = m' then v else 0) := by
  unfold statValue applyEvent
  rw [findStat_upsertStat]
  by_cases h : a = a' ∧ buildMetricKey et q = m'
  · obtain ⟨h1, h2⟩ := h
    subst h1; subst h2
    have hc : a = a ∧ buildMetricKey et q = buildMetricKey et q := ⟨rfl, rfl⟩
    simp only [if_pos hc]
    cases hf : findStat s.stats a (buildMetricKey et q) <;>
      simp [hf, bumpStat]
  · simp [h]

/-- `eventSum` after the two writes of one event: same increment shape. -/
lemma eventSum_applyEvent (s : Store) (a et cat : String) (q : Option String)
    (v ts : Int) (co : Option String) (a' m' : String) :
    eventSum (applyEvent s a et cat q v ts co) a' m' =
      eventSum s a' m' +
        (if a = a' ∧ buildMetricKey et q = m' then v else 0) := by
  unfold eventSum applyEvent
  simp only [List.filter_append, List.map_append, List.sum_append]
  by_cases h : a = a' ∧ buildMetricKey et q = m'
  · obtain ⟨h1, h2⟩ := h
    subst h1; subst h2
    simp [List.filter]
  · have hb : ((a == a') && (buildMetricKey et q == m')) = false := by
      rcases not_and_or.mp h with h1 | h1 <;> simp [h1]
    simp [List.filter, hb, h]

lemma consistent_empty : ConsistentStore Store.empty := by
  intro a m
  simp [statValue, eventSum, findStat, Store.empty]

lemma consistent_applyEvent {s : Store} (h : ConsistentStore s)
    (a et cat : String) (q : Option String) (v ts : Int)
    (co : Option String) :
    ConsistentStore (applyEvent s a et cat q v ts co) := by
  intro a' m'
  rw [statValue_applyEvent, eventSum_applyEvent, h a' m']

lemma consistent_foldl {reqs : List TrackRequest} {s : Store} {a : String}
    (h : ConsistentStore s) :
    ConsistentStore (reqs.foldl (fun st e =>
      applyEvent st a e.event_type (resolveCategory e.category e.event_type)
        e.qualifier e.value e.timestamp e.country) s) := by
  induction reqs generalizing s with
  | nil => exact h
  | cons e rest ih => exact ih (consistent_applyEvent h _ _ _ _ _ _ _)

lemma consistent_stepOp {s : Store} (h : ConsistentStore s) (op : Op) :
    ConsistentStore (stepOp s op) := by
  cases op with
  | record a req =>
    unfold stepOp handleTrackEvent
    by_cases he : req.event_type = ""
    · simpa [he] using h
    · simpa [he] using consistent_applyEvent h a req.event_type
        (resolveCategory req.category req.event_type) req.qualifier
        req.value req.timestamp req.country
  | recordBatch a reqs =>
    unfold stepOp handleBatchTrackEvents
    by_cases h1 : reqs.isEmpty
    · simpa [h1] using h
    · by_cases h2 : reqs.length > 100
      · simpa [h1, h2] using h
      · by_cases h3 : reqs.any (fun e => e.event_type == "")
        · simpa [h1, h2, h3] using h
        · simpa [h1, h2, h3] using consistent_foldl (a := a) h

lemma consistent_runOps (ops : List Op) : ConsistentStore (runOps ops) := by
  unfold runOps
  have : ∀ s : Store, ConsistentStore s →
      ConsistentStore (ops.foldl stepOp s) := by
    induction ops with
    | nil => exact fun s h => h
    | cons op rest ih => exact fun s h => ih _ (consistent_stepOp h op)
  exact this Store.empty consistent_empty

/-- C1: Counter consistency.  Starting from the empty store, after any
sequence of `record` / `recordBatch` calls (failed calls leave the store
untouched, so every successful sequence is covered), each Stat row's value
for `(app_id, metric)` equals the sum of `value` over all events whose
`app_id` matches and whose derived metric key equals that metric. -/
theorem counter_consistency (ops : List Op) (a m : String) :
    statValue (runOps ops) a m = eventSum (runOps ops) a m :=
  consistent_runOps ops a m

/-- C2: Batch atomicity.  Whenever a `recordBatch` call contains an item
with a missing `event_type`, the call returns an error response before the
`db.batch` is ever submitted, so the store is left exactly as it was: zero
event rows and zero stat updates are persisted.  (When the batch also
exceeds 100 items the size error fires first; either way nothing is
written.) -/
theorem batch_atomicity (s : Store) (a : String) (reqs : List TrackRequest)
    (h : ∃ e ∈ reqs, e.event_type = "") :
    (∃ msg, handleBatchTrackEvents s a reqs = .error msg) ∧
    (reqs.length ≤ 100 →
      handleBatchTrackEvents s a reqs =
        .error "Missing event_type in batch item") ∧
    stepOp s (.recordBatch a reqs) = s := by
  have hne : reqs.isEmpty = false := by
    obtain ⟨e, he, _⟩ := h
    cases reqs
    · simp at he
    · simp [List.isEmpty]
  have hany : reqs.any (fun e => e.event_type == "") = true := by
    obtain ⟨e, he, hh⟩ := h
    simp only [List.any_eq_true]
    exact ⟨e, he, by simp [hh]⟩
  refine ⟨?_, ?_, ?_⟩
  · by_cases h2 : reqs.length > 100
    · exact ⟨"Batch size exceeds maximum (100)", by
        unfold handleBatchTrackEvents
        simp [hne, h2]⟩
    · exact ⟨"Missing event_type in batch item", by
        unfold handleBatchTrackEvents
        simp [hne, h2, hany]⟩
  · intro hle
    have h2 : ¬ reqs.length > 100 := by omega
    unfold handleBatchTrackEvents
    simp [hne, h2, hany]
  · unfold stepOp handleBatchTrackEvents
    by_cases h2 : reqs.length > 100 <;> simp [hne, h2, hany]

/-- C2 witness: the spec's example — a 5-item batch whose third item has
no `event_type` fails and persists nothing. -/
theorem batch_atomicity_witness :
    ((∃ msg, handleBatchTrackEvents Store.empty "app1" batchWitnessReqs =
      .error msg) ∧
    (batchWitnessReqs.length ≤ 100 →
      handleBatchTrackEvents Store.empty "app1" batchWitnessReqs =
        .error "Missing event_type in batch item") ∧
    stepOp Store.empty (.recordBatch "app1" batchWitnessReqs) =
      Store.empty) :=
  batch_atomicity Store.empty "app1" batchWitnessReqs
    ⟨⟨"", none, 1, none, 102, none⟩, by decide, rfl⟩

/-- C3 counterexample: a second `record` call on an existing stat row
succeeds and resolves its own category to `"beta"`, yet the stored
category remains the first call's `"alpha"` — the upsert's conflict clause
(`SET value = value + ?, last_updated = ?`) never writes `category`, so
"category last-write-wins" fails on the code. -/
theorem category_lastwrite_counterexample :
    (handleTrackEvent catStore1 "app1" catReq2).isOk = true ∧
    statValue catStore1 "app1" "signup" ≠ 0 ∧
    resolveCategory catReq2.category catReq2.event_type = "beta" ∧
    statCategory catStore2 "app1" "signup" = some "alpha" ∧
    ("alpha" : String) ≠ "beta" := by
  refine ⟨by decide, by decide, by decide, by decide, by decide⟩

/-- `statCategory` at the upserted key: the previous category wins;
the asserted category is only stored when the row is new. -/
lemma statCategory_applyEvent_key (s : Store) (a et cat : String)
    (q : Option String) (v ts : Int) (co : Option String) :
    statCategory (applyEvent s a et cat q v ts co) a (buildMetricKey et q) =
      some ((statCategory s a (buildMetricKey et q)).getD cat) := by
  unfold statCategory applyEvent
  rw [findStat_upsertStat]
  have hc : a = a ∧ buildMetricKey et q = buildMetricKey et q := ⟨rfl, rfl⟩
  simp only [if_pos hc]
  cases hf : findStat s.stats a (buildMetricKey et q) <;>
    simp [hf, bumpStat]

/-- `statLastUpdated` at the upserted key: always the new timestamp. -/
lemma statLastUpdated_applyEvent_key (s : Store) (a et cat : String)
    (q : Option String) (v ts : Int) (co : Option String) :
    statLastUpdated (applyEvent s a et cat q v ts co) a
      (buildMetricKey et q) = some ts := by
  unfold statLastUpdated applyEvent
  rw [findStat_upsertStat]
  have hc : a = a ∧ buildMetricKey et q = buildMetricKey et q := ⟨rfl, rfl⟩
  simp only [if_pos hc]
  cases hf : findStat s.stats a (buildMetricKey et q) <;>
    simp [hf, bumpStat]

/-- C3 (amended): a successful `record` call adds `value` and refreshes
`last_updated` on the Stat row, but `category` is written only when the
row is first inserted — on an existing row the previously stored category
is preserved (first write wins), because the upsert's conflict clause does
not set `category`. -/
theorem record_updates_stat (s : Store) (a : String) (req : TrackRequest)
    (s' : Store) (r : TrackResult)
    (h : handleTrackEvent s a req = .ok (s', r)) :
    statCategory s' a r.metric =
      some ((statCategory s a r.metric).getD
        (resolveCategory req.category req.event_type)) ∧
    statValue s' a r.metric = statValue s a r.metric + req.value ∧
    statLastUpdated s' a r.metric = some req.timestamp := by
  unfold handleTrackEvent at h
  by_cases he : req.event_type = ""
  · simp [he] at h
  · simp only [he, if_false, Except.ok.injEq, Prod.mk.injEq] at h
    obtain ⟨hs, hr⟩ := h
    subst hs
    have hm : r.metric = buildMetricKey req.event_type req.qualifier := by
      rw [← hr]
    rw [hm]
    refine ⟨statCategory_applyEvent_key _ _ _ _ _ _ _ _, ?_,
      statLastUpdated_applyEvent_key _ _ _ _ _ _ _ _⟩
    rw [statValue_applyEvent]
    simp

/-- C3 (amended) witness: the `alpha`/`beta` scenario instantiating
`record_updates_stat` — value 1 + 2, timestamp refreshed, category kept. -/
theorem record_updates_stat_witness :
    statCategory catStore2 "app1" catRes2.metric =
      some ((statCategory catStore1 "app1" catRes2.metric).getD
        (resolveCategory catReq2.category catReq2.event_type)) ∧
    statValue catStore2 "app1" catRes2.metric =
      statValue catStore1 "app1" catRes2.metric + catReq2.value ∧
    statLastUpdated catStore2 "app1" catRes2.metric =
      some catReq2.timestamp :=
  record_updates_stat catStore1 "app1" catReq2 catStore2 catRes2 rfl

/-- C4: Categorizer.  `determineCategory` is a total function (a Lean
function on `String`); the seven ordered rules give the four specified
values — in particular `"error_on_login"` hits the error rule, which is
checked before the user rule — and every output is one of the seven
category labels. -/
theorem categorize_rules :
    determineCategory "purchase_premium" = "revenue" ∧
    determineCategory "page_view" = "engagement" ∧
    determineCategory "random_xyz" = "general" ∧
    determineCategory "error_on_login" = "error" ∧
    ∀ et : String, determineCategory et ∈
      (["revenue", "lifecycle", "engagement", "interaction", "error",
        "user", "general"] : List String) := by
  refine ⟨by decide, by decide, by decide, by decide, ?_⟩
  intro et
  unfold determineCategory
  split_ifs <;> simp

/-- C5 counterexample: a present-but-empty qualifier is JS-falsy, so the
metric key is the bare event type, not `event_type + "."`. -/
theorem metric_key_empty_qualifier_counterexample :
    buildMetricKey "install" (some "") = "install" ∧
    buildMetricKey "install" (some "") ≠ "install" ++ "." ++ "" := by
  refine ⟨by decide, by decide⟩

/-- C5 (amended): the metric key is `event_type` when the qualifier is
absent *or empty* (JS truthiness), and `event_type + "." + qualifier` for
a non-empty qualifier; the two specified examples hold. -/
theorem metric_key_builder (et q : String) :
    buildMetricKey et none = et ∧
    buildMetricKey et (some "") = et ∧
    (q ≠ "" → buildMetricKey et (some q) = et ++ "." ++ q) ∧
    buildMetricKey "install" none = "install" ∧
    buildMetricKey "purchase" (some "premium") = "purchase.premium" := by
  refine ⟨rfl, by simp [buildMetricKey], fun h => ?_, by decide, by decide⟩
  simp [buildMetricKey, h]

/-- C5 (amended) witness at `("purchase", "premium")`. -/
theorem metric_key_builder_witness :
    buildMetricKey "purchase" (some "premium") =
      "purchase" ++ "." ++ "premium" :=
  (metric_key_builder "purchase" "premium").2.2.1 (by decide)

/-- C6 counterexample: after recording value 1 and then value -1 on the
same metric the counter is 0; the read-back `result?.value || value` sees
the falsy 0 and the call returns the event's own value -1 instead of the
post-commit counter value 0. -/
theorem readback_zero_counterexample :
    (handleTrackEvent plusStore "app1" minusReq).toOption.map
      (fun p => (p.2.value, statValue p.1 "app1" "signup")) =
      some (-1, 0) ∧ (-1 : Int) ≠ 0 := by
  refine ⟨by decide, by decide⟩

/-- C6 (amended): for every successful `record` call whose post-commit
counter value is non-zero, the returned `value` is exactly that post-commit
read-back (which in a sequential run is the previous counter plus the
event's value); when the counter lands on 0 the JS `||` falls back to the
event's own value. -/
theorem readback_value (s : Store) (a : String) (req : TrackRequest)
    (s' : Store) (r : TrackResult)
    (h : handleTrackEvent s a req = .ok (s', r))
    (hnz : statValue s' a r.metric ≠ 0) :
    r.value = statValue s' a r.metric ∧
    statValue s' a r.metric = statValue s a r.metric + req.value := by
  unfold handleTrackEvent at h
  by_cases he : req.event_type = ""
  · simp [he] at h
  · simp only [he, if_false, Except.ok.injEq, Prod.mk.injEq] at h
    obtain ⟨hs, hr⟩ := h
    subst hs
    have hm : r.metric = buildMetricKey req.event_type req.qualifier := by
      rw [← hr]
    have hval : statValue (applyEvent s a req.event_type
        (resolveCategory req.category req.event_type) req.qualifier
        req.value req.timestamp req.country) a
        (buildMetricKey req.event_type req.qualifier) =
        statValue s a (buildMetricKey req.event_type req.qualifier) +
          req.value := by
      rw [statValue_applyEvent]
      simp
    constructor
    · rw [← hr]
      simp only [hm] at hnz
      simp [hm, if_neg hnz]
    · rw [hm, hval]

/-- C6 (amended) witness: the spec's end-to-end scenario — the second
identical 999-valued call returns 1998, the post-commit counter. -/
theorem readback_value_witness :
    e2eRes2.value = statValue e2eStore2 "app1" e2eRes2.metric ∧
    statValue e2eStore2 "app1" e2eRes2.metric =
      statValue e2eStore1 "app1" e2eRes2.metric + e2eReq.value :=
  readback_value e2eStore1 "app1" e2eReq e2eStore2 e2eRes2 rfl
    (by decide)

/-! ### Sorting lemmas for the Timeseries Engine -/

lemma lexLe_total (x : List Char) : ∀ y, lexLe x y = true ∨ lexLe y x = true := by
  induction x with
  | nil =>
    intro y
    left
    rfl
  | cons a as ih =>
    intro y
    cases y with
    | nil =>
      right
      rfl
    | cons b bs =>
      by_cases hab : a < b
      · left
        simp [lexLe, hab]
      · by_cases hba : b < a
        · right
          simp [lexLe, hba]
        · rcases ih bs with h | h
          · left
            simp [lexLe, hab, hba, h]
          · right
            simp [lexLe, hab, hba, h]

lemma lexLe_trans (x : List Char) :
    ∀ y z, lexLe x y = true → lexLe y z = true → lexLe x z = true := by
  induction x with
  | nil =>
    intro y z _ _
    rfl
  | cons a as ih =>
    intro y z hxy hyz
    cases y with
    | nil => simp [lexLe] at hxy
    | cons b bs =>
      cases z with
      | nil => simp [lexLe] at hyz
      | cons c cs =>
        by_cases hab : a < b
        · by_cases hbc : b < c
          · simp [lexLe, lt_trans hab hbc]
          · by_cases hcb : c < b
            · simp [lexLe, hbc, hcb] at hyz
            · have hac : a < c := lt_of_lt_of_le hab (le_of_not_lt hcb)
              simp [lexLe, hac]
        · by_cases hba : b < a
          · simp [lexLe, hab, hba] at hxy
          · have hab' : a = b :=
              le_antisymm (le_of_not_lt hba) (le_of_not_lt hab)
            subst hab'
            have hxy' : lexLe as bs = true := by
              simpa [lexLe, hab] using hxy
            by_cases hbc : a < c
            · simp [lexLe, hbc]
            · by_cases hcb : c < a
              · simp [lexLe, hbc, hcb] at hyz
              · have hyz' : lexLe bs cs = true := by
                  simpa [lexLe, hbc, hcb] using hyz
                simp [lexLe, hbc, hcb, ih bs cs hxy' hyz']

lemma strLe_total (x y : String) : strLe x y = true ∨ strLe y x = true :=
  lexLe_total x.data y.data

lemma strLe_trans {x y z : String} (h1 : strLe x y = true)
    (h2 : strLe y z = true) : strLe x z = true :=
  lexLe_trans x.data y.data z.data h1 h2

lemma insortStr_perm (x : String) (l : List String) :
    (insortStr x l).Perm (x :: l) := by
  induction l with
  | nil => exact List.Perm.refl _
  | cons y ys ih =>
    unfold insortStr
    split
    · exact List.Perm.refl _
    · exact (List.Perm.cons y ih).trans (List.Perm.swap x y ys)

lemma sortAsc_perm (l : List String) : (sortAsc l).Perm l := by
  induction l with
  | nil => exact List.Perm.refl _
  | cons x xs ih =>
    exact (insortStr_perm x (sortAsc xs)).trans (List.Perm.cons x ih)

lemma sortAsc_mem {l : List String} {x : String} : x ∈ sortAsc l ↔ x ∈ l :=
  (sortAsc_perm l).mem_iff

lemma sortAsc_length (l : List String) : (sortAsc l).length = l.length :=
  (sortAsc_perm l).length_eq

lemma sortAsc_nodup {l : List String} (h : l.Nodup) : (sortAsc l).Nodup :=
  (sortAsc_perm l).nodup_iff.mpr h

lemma insortStr_sorted {l : List String} (x : String) (h : StrSortedLe l) :
    StrSortedLe (insortStr x l) := by
  induction l with
  | nil => simp [insortStr, StrSortedLe]
  | cons y ys ih =>
    obtain ⟨hy, hys⟩ := List.pairwise_cons.mp h
    unfold insortStr
    by_cases hxy : strLe x y = true
    · rw [if_pos hxy]
      refine List.Pairwise.cons ?_ h
      intro z hz
      rcases List.mem_cons.mp hz with rfl | hz2
      · exact hxy
      · exact strLe_trans hxy (hy z hz2)
    · rw [if_neg hxy]
      have hyx : strLe y x = true := (strLe_total x y).resolve_left hxy
      refine List.Pairwise.cons ?_ (ih hys)
      intro z hz
      have hz' : z ∈ x :: ys := (insortStr_perm x ys).mem_iff.mp hz
      rcases List.mem_cons.mp hz' with rfl | hz2
      · exact hyx
      · exact hy z hz2

lemma sortAsc_sorted (l : List String) : StrSortedLe (sortAsc l) := by
  induction l with
  | nil => simp [sortAsc, StrSortedLe]
  | cons x xs ih => exact insortStr_sorted x ih

/-- `ORDER BY key DESC LIMIT n` followed by a JS `reverse()` yields an
ascending list. -/
lemma descTake_reverse_sorted (ks : List String) (n : Nat) :
    StrSortedLe (((sortAsc ks).reverse.take n).reverse) := by
  have h2 : ((sortAsc ks).reverse).Pairwise
      (fun a b => strLe b a = true) := by
    rw [List.pairwise_reverse]
    exact sortAsc_sorted ks
  have h3 : (((sortAsc ks).reverse).take n).Pairwise
      (fun a b => strLe b a = true) :=
    h2.sublist (List.take_sublist n _)
  unfold StrSortedLe
  rw [List.pairwise_reverse]
  exact h3

lemma descTake_nodup {ks : List String} (hnd : ks.Nodup) (n : Nat) :
    (((sortAsc ks).reverse.take n).reverse).Nodup := by
  rw [List.nodup_reverse]
  exact (List.nodup_reverse.mpr (sortAsc_nodup hnd)).sublist
    (List.take_sublist n _)

lemma descTake_length (ks : List String) (n : Nat) :
    (((sortAsc ks).reverse.take n).reverse).length = min n ks.length := by
  simp [List.length_take, sortAsc_length]

lemma descTake_mem {ks : List String} {n : Nat} {k : String}
    (h : k ∈ ((sortAsc ks).reverse.take n).reverse) : k ∈ ks := by
  rw [List.mem_reverse] at h
  have h1 := List.mem_of_mem_take h
  rw [List.mem_reverse] at h1
  exact sortAsc_mem.mp h1

/-- Every bucket key dropped by `ORDER BY key DESC LIMIT n` is strictly
older than every key kept: the query keeps the n most recent buckets. -/
lemma descTake_max {ks : List String} (hnd : ks.Nodup) {n : Nat}
    {k k' : String} (hk : k ∈ ks)
    (hnot : k ∉ ((sortAsc ks).reverse.take n).reverse)
    (hk' : k' ∈ ((sortAsc ks).reverse.take n).reverse) :
    strLe k k' = true ∧ k ≠ k' := by
  have hdesc : ((sortAsc ks).reverse).Pairwise
      (fun a b => strLe b a = true) := by
    rw [List.pairwise_reverse]
    exact sortAsc_sorted ks
  rw [List.mem_reverse] at hnot hk'
  have hkdesc : k ∈ (sortAsc ks).reverse := by
    rw [List.mem_reverse, sortAsc_mem]
    exact hk
  have hsplit := List.take_append_drop n ((sortAsc ks).reverse)
  have hkdrop : k ∈ ((sortAsc ks).reverse).drop n := by
    have hm : k ∈ ((sortAsc ks).reverse).take n ++
        ((sortAsc ks).reverse).drop n := by
      rw [hsplit]
      exact hkdesc
    rcases List.mem_append.mp hm with h1 | h1
    · exact absurd h1 hnot
    · exact h1
  have hdesc2 : (((sortAsc ks).reverse).take n ++
      ((sortAsc ks).reverse).drop n).Pairwise
        (fun a b => strLe b a = true) := by
    rw [hsplit]
    exact hdesc
  have hnd2 : (((sortAsc ks).reverse).take n ++
      ((sortAsc ks).reverse).drop n).Nodup := by
    rw [hsplit]
    exact List.nodup_reverse.mpr (sortAsc_nodup hnd)
  refine ⟨(List.pairwise_append.mp hdesc2).2.2 k' hk' k hkdrop, ?_⟩
  intro he
  exact (List.disjoint_of_nodup_append hnd2) hk' (he ▸ hkdrop)

/-- JS `slice(-n)` of an ascending sort stays ascending. -/
lemma jsSliceNeg_sorted (ks : List String) (n : Nat) :
    StrSortedLe (jsSliceNeg n (sortAsc ks)) := by
  unfold jsSliceNeg
  split
  · exact sortAsc_sorted ks
  · exact (sortAsc_sorted ks).sublist (List.drop_sublist _ _)

lemma jsSliceNeg_nodup {ks : List String} (hnd : ks.Nodup) (n : Nat) :
    (jsSliceNeg n (sortAsc ks)).Nodup := by
  unfold jsSliceNeg
  split
  · exact sortAsc_nodup hnd
  · exact (sortAsc_nodup hnd).sublist (List.drop_sublist _ _)

lemma jsSliceNeg_length {n : Nat} (hn : 1 ≤ n) (l : List String) :
    (jsSliceNeg n l).length = min n l.length := by
  unfold jsSliceNeg
  rw [if_neg (by omega), List.length_drop]
  omega

lemma jsSliceNeg_mem {n : Nat} {l : List String} {k : String}
    (h : k ∈ jsSliceNeg n l) : k ∈ l := by
  unfold jsSliceNeg at h
  split at h
  · exact h
  · exact List.drop_subset _ _ h

/-- Every bucket key omitted by `slice(-n)` on the ascending union is
strictly older than every key kept. -/
lemma jsSliceNeg_max {ks : List String} (hnd : ks.Nodup) {n : Nat}
    (hn : 1 ≤ n) {k k' : String} (hk : k ∈ ks)
    (hnot : k ∉ jsSliceNeg n (sortAsc ks))
    (hk' : k' ∈ jsSliceNeg n (sortAsc ks)) :
    strLe k k' = true ∧ k ≠ k' := by
  unfold jsSliceNeg at hnot hk'
  rw [if_neg (by omega)] at hnot hk'
  have hkasc : k ∈ sortAsc ks := sortAsc_mem.mpr hk
  have hsplit := List.take_append_drop ((sortAsc ks).length - n) (sortAsc ks)
  have hktake : k ∈ (sortAsc ks).take ((sortAsc ks).length - n) := by
    have hm : k ∈ (sortAsc ks).take ((sortAsc ks).length - n) ++
        (sortAsc ks).drop ((sortAsc ks).length - n) := by
      rw [hsplit]
      exact hkasc
    rcases List.mem_append.mp hm with h1 | h1
    · exact h1
    · exact absurd h1 hnot
  have hasc2 : ((sortAsc ks).take ((sortAsc ks).length - n) ++
      (sortAsc ks).drop ((sortAsc ks).length - n)).Pairwise
        (fun a b => strLe a b = true) := by
    rw [hsplit]
    exact sortAsc_sorted ks
  have hnd2 : ((sortAsc ks).take ((sortAsc ks).length - n) ++
      (sortAsc ks).drop ((sortAsc ks).length - n)).Nodup := by
    rw [hsplit]
    exact sortAsc_nodup hnd
  refine ⟨(List.pairwise_append.mp hasc2).2.2 k hktake k' hk', ?_⟩
  intro he
  exact (List.disjoint_of_nodup_append hnd2) hktake (he ▸ hk')

/-! ### Timeseries theorems -/

/-- The keys of a single-metric timeseries result are the reversed
`take` of the descending bucket-key sort. -/
lemma timeseriesQuery_keys (s : Store) (a metric : String)
    (bucketOf : Int → String) (fromD toD : Int) (limit : Nat) :
    (timeseriesQuery s a metric bucketOf fromD toD limit).map Prod.fst =
      ((sortAsc (bucketKeys (queryEvents s a metric fromD toD)
        bucketOf)).reverse.take limit).reverse := by
  unfold timeseriesQuery
  rw [List.map_reverse, List.map_map]
  have hcomp : (Prod.fst ∘ fun k =>
      (k, bucketSum (queryEvents s a metric fromD toD) bucketOf k)) =
      @id String := rfl
  rw [hcomp, List.map_id]

/-- C7: Single-metric bucket truncation.  The single-metric timeseries
result is strictly ascending, has exactly `min limit #buckets` entries,
pairs each kept bucket with its sum over the matching events, and every
populated bucket it omits is strictly older than every bucket it keeps —
i.e. it is the `limit` most recent buckets reordered ascending. -/
theorem timeseries_truncation (s : Store) (a metric : String)
    (bucketOf : Int → String) (fromD toD : Int) (limit : Nat) :
    StrSortedLe ((timeseriesQuery s a metric bucketOf fromD toD limit).map
      Prod.fst) ∧
    ((timeseriesQuery s a metric bucketOf fromD toD limit).map
      Prod.fst).Nodup ∧
    (timeseriesQuery s a metric bucketOf fromD toD limit).length =
      min limit
        (bucketKeys (queryEvents s a metric fromD toD) bucketOf).length ∧
    (∀ p ∈ timeseriesQuery s a metric bucketOf fromD toD limit,
      p.1 ∈ bucketKeys (queryEvents s a metric fromD toD) bucketOf ∧
      p.2 = bucketSum (queryEvents s a metric fromD toD) bucketOf p.1) ∧
    (∀ k ∈ bucketKeys (queryEvents s a metric fromD toD) bucketOf,
      k ∉ (timeseriesQuery s a metric bucketOf fromD toD limit).map
        Prod.fst →
      ∀ k' ∈ (timeseriesQuery s a metric bucketOf fromD toD limit).map
        Prod.fst, strLe k k' = true ∧ k ≠ k') := by
  have hnd : (bucketKeys (queryEvents s a metric fromD toD) bucketOf).Nodup :=
    List.nodup_dedup _
  refine ⟨?_, ?_, ?_, ?_, ?_⟩
  · rw [timeseriesQuery_keys]
    exact descTake_reverse_sorted _ limit
  · rw [timeseriesQuery_keys]
    exact descTake_nodup hnd limit
  · have hlen : (timeseriesQuery s a metric bucketOf fromD toD limit).length =
        ((timeseriesQuery s a metric bucketOf fromD toD limit).map
          Prod.fst).length := (List.length_map _ _).symm
    rw [hlen, timeseriesQuery_keys, descTake_length]
  · intro p hp
    unfold timeseriesQuery at hp
    rw [List.mem_reverse] at hp
    obtain ⟨k, hk, hpe⟩ := List.mem_map.mp hp
    have hkks : k ∈ bucketKeys (queryEvents s a metric fromD toD) bucketOf := by
      have h1 := List.mem_of_mem_take hk
      rw [List.mem_reverse] at h1
      exact sortAsc_mem.mp h1
    cases hpe
    exact ⟨hkks, rfl⟩
  · intro k hk hnot k' hk'
    rw [timeseriesQuery_keys] at hnot hk'
    exact descTake_max hnd hk hnot hk'

/-- C7 witness: the spec's truncation example — `limit = 2` over the five
populated daily buckets of `tsStore` — instantiating
`timeseries_truncation`. -/
theorem timeseries_truncation_witness :
    StrSortedLe ((timeseriesQuery tsStore "app1" "tick" demoBucket 0 100
      2).map Prod.fst) ∧
    ((timeseriesQuery tsStore "app1" "tick" demoBucket 0 100 2).map
      Prod.fst).Nodup ∧
    (timeseriesQuery tsStore "app1" "tick" demoBucket 0 100 2).length =
      min 2
        (bucketKeys (queryEvents tsStore "app1" "tick" 0 100)
          demoBucket).length ∧
    (∀ p ∈ timeseriesQuery tsStore "app1" "tick" demoBucket 0 100 2,
      p.1 ∈ bucketKeys (queryEvents tsStore "app1" "tick" 0 100)
        demoBucket ∧
      p.2 = bucketSum (queryEvents tsStore "app1" "tick" 0 100) demoBucket
        p.1) ∧
    (∀ k ∈ bucketKeys (queryEvents tsStore "app1" "tick" 0 100) demoBucket,
      k ∉ (timeseriesQuery tsStore "app1" "tick" demoBucket 0 100 2).map
        Prod.fst →
      ∀ k' ∈ (timeseriesQuery tsStore "app1" "tick" demoBucket 0 100 2).map
        Prod.fst, strLe k k' = true ∧ k ≠ k') :=
  timeseries_truncation tsStore "app1" "tick" demoBucket 0 100 2

/-- An event passing a qualifier-less filter stores no qualifier. -/
lemma eventMatches_none_qualifier {e : EventRow} {a et : String}
    {fromD toD : Int} (h : eventMatches e a et none fromD toD = true) :
    e.qualifier = none := by
  unfold eventMatches at h
  simp only [Bool.and_eq_true, beq_iff_eq] at h
  exact h.2

/-- Removing all qualified events does not change a qualifier-less
filter's result. -/
lemma matching_filter_none (evts : List EventRow) (a et : String)
    (fromD toD : Int) :
    ((evts.filter fun e => e.qualifier == none).filter fun e =>
      eventMatches e a et none fromD toD) =
    evts.filter fun e => eventMatches e a et none fromD toD := by
  rw [List.filter_filter]
  apply List.filter_congr
  intro e _
  by_cases hqe : e.qualifier = none
  · simp [hqe]
  · have h0 : (e.qualifier == none) = false := by simp [hqe]
    have hf : eventMatches e a et none fromD toD = false := by
      unfold eventMatches
      simp [h0]
    simp [hf]

/-- C9: Qualifier-less query exclusion.  When the requested metric splits
to a `null` qualifier, every event the query ranges over has a `null`
qualifier, and deleting all qualified events from the store leaves the
whole timeseries result unchanged — an event with a non-null qualifier
never contributes to any bucket. -/
theorem qualifierless_excludes (s : Store) (a metric : String)
    (bucketOf : Int → String) (fromD toD : Int) (limit : Nat)
    (hq : (splitMetric metric).2 = none) :
    (∀ e ∈ queryEvents s a metric fromD toD, e.qualifier = none) ∧
    timeseriesQuery s a metric bucketOf fromD toD limit =
      timeseriesQuery ⟨s.events.filter (fun e => e.qualifier == none),
        s.stats⟩ a metric bucketOf fromD toD limit := by
  have hfilter : queryEvents
      (⟨s.events.filter (fun e => e.qualifier == none), s.stats⟩ : Store)
        a metric fromD toD = queryEvents s a metric fromD toD := by
    unfold queryEvents matchingEvents
    rw [hq]
    exact matching_filter_none s.events a (splitMetric metric).1 fromD toD
  constructor
  · intro e he
    unfold queryEvents matchingEvents at he
    rw [hq] at he
    exact eventMatches_none_qualifier (List.mem_filter.mp he).2
  · unfold timeseriesQuery
    rw [hfilter]

/-- C9 witness: on `qualStore` the qualifier-less metric `tick` sees only
the unqualified event; dropping the qualified one changes nothing. -/
theorem qualifierless_excludes_witness :
    (∀ e ∈ queryEvents qualStore "app1" "tick" 0 100,
      e.qualifier = none) ∧
    timeseriesQuery qualStore "app1" "tick" demoBucket 0 100 30 =
      timeseriesQuery
        ⟨qualStore.events.filter (fun e => e.qualifier == none),
          qualStore.stats⟩ "app1" "tick" demoBucket 0 100 30 :=
  qualifierless_excludes qualStore "app1" "tick" demoBucket 0 100 30
    (by decide)

/-! ### Metric splitting (C10) -/

lemma splitDot_ne_nil (l : List Char) : splitDot l ≠ [] := by
  cases l with
  | nil => simp [splitDot]
  | cons c rest =>
    unfold splitDot
    by_cases hc : c = '.'
    · simp [hc]
    · simp only [if_neg hc]
      cases splitDot rest <;> simp

/-- Splitting `a ++ "." ++ b` when `a` is dot-free: the first part is `a`
and the rest is the split of `b`. -/
lemma splitDot_append_dotfree (a b : List Char) (ha : '.' ∉ a) :
    splitDot (a ++ '.' :: b) = a :: splitDot b := by
  induction a with
  | nil => simp [splitDot]
  | cons c a2 ih =>
    have hc : ¬ c = '.' := fun h => ha (by rw [h]; exact List.mem_cons_self _ _)
    have ha2 : '.' ∉ a2 := fun h => ha (List.mem_cons_of_mem _ h)
    rw [List.cons_append]
    show (if c = '.' then [] :: splitDot (a2 ++ '.' :: b)
      else match splitDot (a2 ++ '.' :: b) with
        | [] => [[c]]
        | h :: t => (c :: h) :: t) = (c :: a2) :: splitDot b
    rw [if_neg hc, ih ha2]

/-- The first part of a dot-split is the dot-free prefix. -/
lemma splitDot_headD (l : List Char) :
    (splitDot l).headD [] = l.takeWhile (fun x => x ≠ '.') := by
  induction l with
  | nil => simp [splitDot]
  | cons c rest ih =>
    by_cases hc : c = '.'
    · subst hc
      simp [splitDot, List.takeWhile_cons]
    · unfold splitDot
      rw [if_neg hc]
      cases hb : splitDot rest with
      | nil => exact absurd hb (splitDot_ne_nil rest)
      | cons hd tl =>
        rw [hb] at ih
        have ihd : hd = rest.takeWhile (fun x => decide (x ≠ '.')) := by
          simpa using ih
        simp [List.takeWhile_cons, hc, ihd]

/-- C10 counterexample: the Timeseries Engine's JS `split('.', 2)` on
`"a.b.c"` yields event type `"a"` with qualifier `"b"` — the text between
the first and second dot — not the full remainder `"b.c"` the claim
asserts (a JS `split` limit truncates the parts list). -/
theorem metric_split_counterexample :
    splitMetric "a.b.c" = ("a", some "b") ∧
    splitMetric "a.b.c" ≠ ("a", some "b.c") := by
  refine ⟨by decide, by decide⟩

/-- C10 (amended): for a metric of the form `a ++ "." ++ b` with `a`
dot-free, the engine queries event type `a` with qualifier the dot-free
prefix of `b` (the text between the first and the second dot); anything
after a second dot is discarded. -/
theorem metric_split_first_dot (a b : List Char) (ha : '.' ∉ a) :
    splitMetric ⟨a ++ '.' :: b⟩ =
      (⟨a⟩, some ⟨b.takeWhile (fun x => x ≠ '.')⟩) := by
  unfold splitMetric
  have hcon : (String.mk (a ++ '.' :: b)).data.contains '.' = true := by
    simp [List.contains]
  rw [if_pos hcon, splitDot_append_dotfree a b ha]
  cases hb : splitDot b with
  | nil => exact absurd hb (splitDot_ne_nil b)
  | cons hd tl =>
    have hhd : hd = b.takeWhile (fun x => decide (x ≠ '.')) := by
      have h1 := splitDot_headD b
      rw [hb] at h1
      simpa using h1
    simp [hhd]

/-- C10 (amended) witness at the metric `"a.b.c"`. -/
theorem metric_split_first_dot_witness :
    splitMetric ⟨['a'] ++ '.' :: ['b', '.', 'c']⟩ =
      (⟨['a']⟩, some ⟨(['b', '.', 'c']).takeWhile (fun x => x ≠ '.')⟩) :=
  metric_split_first_dot ['a'] ['b', '.', 'c'] (by decide)

/-! ### Comparison query (C8) -/

/-- A bucket key no matching event falls into sums to 0. -/
lemma bucketSum_eq_zero_of_not_mem {evs : List EventRow}
    {bucketOf : Int → String} {k : String}
    (h : k ∉ bucketKeys evs bucketOf) : bucketSum evs bucketOf k = 0 := by
  unfold bucketSum
  have hfil : evs.filter (fun e => bucketOf e.timestamp == k) = [] := by
    rw [List.filter_eq_nil_iff]
    intro e he hb
    apply h
    unfold bucketKeys
    rw [List.mem_dedup]
    exact List.mem_map.mpr ⟨e, he, by simpa using hb⟩
  rw [hfil]
  rfl

/-- The dense-row lookup of `handleComparisonQuery`
(`find` in the metric's series, else 0) always returns the metric's sum
over that bucket — 0 exactly when the metric has no events there. -/
lemma metricSeries_lookup (s : Store) (a m : String)
    (bucketOf : Int → String) (fromD toD : Int) (k : String) :
    (match (metricSeries s a m bucketOf fromD toD).find?
        (fun p => p.1 == k) with
     | some p => p.2
     | none => 0) =
      bucketSum (queryEvents s a m fromD toD) bucketOf k := by
  cases hf : (metricSeries s a m bucketOf fromD toD).find?
      (fun p => p.1 == k) with
  | none =>
    have hno : k ∉ bucketKeys (queryEvents s a m fromD toD) bucketOf := by
      intro hk
      have hmem : (k, bucketSum (queryEvents s a m fromD toD) bucketOf k) ∈
          metricSeries s a m bucketOf fromD toD := by
        unfold metricSeries
        exact List.mem_map.mpr ⟨k, sortAsc_mem.mpr hk, rfl⟩
      have hnp := List.find?_eq_none.mp hf _ hmem
      simp at hnp
    exact (bucketSum_eq_zero_of_not_mem hno).symm
  | some p =>
    have hp := List.find?_some hf
    have hmem := List.mem_of_find?_eq_some hf
    unfold metricSeries at hmem
    obtain ⟨key, hkey, hpe⟩ := List.mem_map.mp hmem
    cases hpe
    have hkk : key = k := by simpa using hp
    rw [← hkk]

/-- C8 counterexample: a comparison query with `limit = 0` is not
truncated to the last 0 buckets — JS `slice(-0)` is `slice(0)`, so the
code returns every populated bucket (here 2) instead of none. -/
theorem comparison_limit_zero_counterexample :
    (comparisonQuery cmpStore "app1" ["alpha"] demoBucket 0 100
      0).toOption.map List.length = some 2 ∧ (2 : Nat) ≠ 0 := by
  refine ⟨by decide, by decide⟩

/-- C8: Multi-metric density.  Requesting fewer than 1 or more than 5
metrics is rejected; otherwise (for a positive `limit` — `limit = 0` hits
the JS `slice(-0)` quirk) the result is the ascending sorted union of all
metrics' bucket keys truncated to the last `limit` buckets, each kept
bucket strictly newer than every omitted one, and every row is dense and
rectangular: one entry per distinct requested metric whose value is that
metric's sum over the bucket, hence `0` where the metric has no events. -/
theorem comparison_density (s : Store) (a : String) (metrics : List String)
    (bucketOf : Int → String) (fromD toD : Int) (limit : Nat) :
    ((metrics.length < 1 ∨ 5 < metrics.length) →
      comparisonQuery s a metrics bucketOf fromD toD limit =
        .error "Please provide between 1 and 5 metrics to compare") ∧
    (1 ≤ metrics.length → metrics.length ≤ 5 → 1 ≤ limit →
      ∀ data, comparisonQuery s a metrics bucketOf fromD toD limit =
          .ok data →
        StrSortedLe (data.map Prod.fst) ∧
        (data.map Prod.fst).Nodup ∧
        data.length = min limit
          (unionBucketKeys s a metrics bucketOf fromD toD).length ∧
        (∀ row ∈ data,
          row.1 ∈ unionBucketKeys s a metrics bucketOf fromD toD ∧
          row.2.map Prod.fst = metrics.dedup ∧
          ∀ mv ∈ row.2, mv.2 =
            bucketSum (queryEvents s a mv.1 fromD toD) bucketOf row.1) ∧
        (∀ m ∈ metrics, ∀ row ∈ data, ∃ v, (m, v) ∈ row.2) ∧
        (∀ k ∈ unionBucketKeys s a metrics bucketOf fromD toD,
          k ∉ data.map Prod.fst →
          ∀ k' ∈ data.map Prod.fst, strLe k k' = true ∧ k ≠ k')) := by
  constructor
  · intro hbad
    have hcond : (decide (metrics.length < 1) ||
        decide (metrics.length > 5)) = true := by
      rcases hbad with h | h <;> simp [h]
    unfold comparisonQuery
    rw [if_pos hcond]
  · intro h1 h2 h3 data hdata
    have hcond : (decide (metrics.length < 1) ||
        decide (metrics.length > 5)) = false := by
      simp only [Bool.or_eq_false_iff, decide_eq_false_iff_not]
      omega
    unfold comparisonQuery at hdata
    simp only [hcond, Bool.false_eq_true, if_false, Except.ok.injEq] at hdata
    have hnd : (unionBucketKeys s a metrics bucketOf fromD toD).Nodup :=
      List.nodup_dedup _
    have hkeys : data.map Prod.fst =
        jsSliceNeg limit
          (sortAsc (unionBucketKeys s a metrics bucketOf fromD toD)) := by
      rw [← hdata, List.map_map]
      have hcomp : (Prod.fst ∘ fun k =>
          (k, metrics.dedup.map fun m =>
            (m, match (metricSeries s a m bucketOf fromD toD).find?
                  (fun p => p.1 == k) with
                | some p => p.2
                | none => 0))) = @id String := rfl
      rw [hcomp, List.map_id]
    refine ⟨?_, ?_, ?_, ?_, ?_, ?_⟩
    · rw [hkeys]
      exact jsSliceNeg_sorted _ limit
    · rw [hkeys]
      exact jsSliceNeg_nodup hnd limit
    · have hl : data.length = (data.map Prod.fst).length :=
        (List.length_map _ _).symm
      rw [hl, hkeys, jsSliceNeg_length h3, sortAsc_length]
    · intro row hrow
      rw [← hdata] at hrow
      obtain ⟨k, hk, hre⟩ := List.mem_map.mp hrow
      cases hre
      refine ⟨sortAsc_mem.mp (jsSliceNeg_mem hk), ?_, ?_⟩
      · rw [List.map_map]
        have hcomp2 : (Prod.fst ∘ fun m =>
            (m, match (metricSeries s a m bucketOf fromD toD).find?
                  (fun p => p.1 == k) with
                | some p => p.2
                | none => 0)) = @id String := rfl
        rw [hcomp2, List.map_id]
      · intro mv hmv
        obtain ⟨m, hm, hme⟩ := List.mem_map.mp hmv
        cases hme
        exact metricSeries_lookup s a m bucketOf fromD toD k
    · intro m hm row hrow
      rw [← hdata] at hrow
      obtain ⟨k, hk, hre⟩ := List.mem_map.mp hrow
      cases hre
      refine ⟨_, List.mem_map.mpr ⟨m, List.mem_dedup.mpr hm, rfl⟩⟩
    · intro k hk hnot k' hk'
      rw [hkeys] at hnot hk'
      exact jsSliceNeg_max hnd h3 hk hnot hk'

/-- C8 witness: the spec's density example on `cmpStore` (`alpha` in
buckets d1 and d2, `beta` in d2 and d3) — 3 buckets, each row carrying a
value for both requested metrics — via `comparison_density`. -/
theorem comparison_density_witness :
    cmpData.length = min 30
      (unionBucketKeys cmpStore "app1" ["alpha", "beta"] demoBucket 0
        100).length ∧
    (∀ m ∈ (["alpha", "beta"] : List String), ∀ row ∈ cmpData,
      ∃ v, (m, v) ∈ row.2) := by
  have h := (comparison_density cmpStore "app1" ["alpha", "beta"] demoBucket
    0 100 30).2 (by decide) (by decide) (by decide) cmpData rfl
  exact ⟨h.2.2.1, h.2.2.2.2.1⟩

end Applytics
